import Mathlib

/-!
# discord-logs: a verification development of `src/index.js`

The script fetches the newest messages of a chat channel page by page
(`fetchMessages`), renders them as a plain-text transcript (`formatMessages`,
`saveAttachments`) and writes the transcript to disk (the `ready` handler).

The embedding is shallow.  Asynchronous functions become functions returning
the value their promise settles with; the chat platform, the network and the
file system are parameters.  Errors are represented by their `message`, the
only part of an error the script ever reads.
-/

namespace DiscordLogs

/-! ## Data model -/

/-- An attachment of a message: the script reads `attachment.name` and
`attachment.url`. -/
structure Attachment where
  name : String
  url : String
deriving DecidableEq

/-- A fetched message.  `id` is the platform's snowflake, `authorTag` is
`msg.author.tag`, `createdAt` and `editedAt` are the dates the script passes to
`formatDate` (`editedAt` is `null` for a message that was never edited), and
`attachments` lists `msg.attachments` in the collection's iteration order. -/
structure Message where
  id : Nat
  content : String
  authorTag : String
  createdAt : Nat
  editedAt : Option Nat
  attachments : List Attachment
deriving DecidableEq

/-! ## The message paginator (`fetchMessages`, lines 70-86) -/

/-- The argument of `channel.messages.fetch`: `limit` and `before`
(`before` is `none` while `lastMessageId` is still `undefined`). -/
structure PageRequest where
  limit : Int
  before : Option Nat
deriving DecidableEq

/-- The chat platform behind `channel.messages.fetch`.  It is external to the
script, so it is a parameter: from its current state and a page request it
either rejects with an error message or resolves with a page of messages (in
the page's iteration order) and moves to a new state. -/
structure Platform (σ : Type) where
  fetch : σ → PageRequest → Except String (List Message × σ)

/-- The variables of the loop of `fetchMessages`.  `allMessages` and
`lastMessageId` are the variables of the source; `requests` (the page requests
issued so far, oldest first) and `cursors` (the values assigned to
`lastMessageId` so far, oldest first) are ghost logs; `platform` is the state
of the platform. -/
structure FetchState (σ : Type) where
  allMessages : List Message
  lastMessageId : Option Nat
  requests : List PageRequest
  cursors : List Nat
  platform : σ

/-- How a call of `fetchMessages` ended: the loop variables at that point and
`error = some e` when the call rejected with the platform's error `e`;
with `error = none` the call resolved with `final.allMessages`. -/
structure FetchRun (σ : Type) where
  final : FetchState σ
  error : Option String

/-- The state `fetchMessages` starts its loop in (lines 71-72). -/
def FetchState.init {σ : Type} (s : σ) : FetchState σ :=
  { allMessages := [], lastMessageId := none, requests := [], cursors := [], platform := s }

/-- The page request of line 76-77 in state `st`. -/
def pageRequest {σ : Type} (N : Int) (st : FetchState σ) : PageRequest :=
  { limit := min 100 (N - (st.allMessages.length : Int)), before := st.lastMessageId }

/-- One evaluation of the loop condition of line 74 followed, when it holds, by
one pass through the body (lines 75-82): `Sum.inl` is the state the next
iteration starts in, `Sum.inr` means the loop was left (condition false,
`break` on an empty page, or a rejected request). -/
def fetchStep {σ : Type} (P : Platform σ) (N : Int) (st : FetchState σ) :
    FetchState σ ⊕ FetchRun σ :=
  if (st.allMessages.length : Int) < N then
    match P.fetch st.platform (pageRequest N st) with
    | Except.error e =>
      Sum.inr { final := { st with requests := st.requests ++ [pageRequest N st] },
                error := some e }
    | Except.ok (messages, s) =>
      if messages.length = 0 then
        Sum.inr { final := { st with requests := st.requests ++ [pageRequest N st],
                                     platform := s },
                  error := none }
      else
        Sum.inl { allMessages := st.allMessages ++ messages,
                  lastMessageId := messages.getLast?.map Message.id,
                  requests := st.requests ++ [pageRequest N st],
                  cursors := st.cursors ++ (messages.getLast?.map Message.id).toList,
                  platform := s }
  else
    Sum.inr { final := st, error := none }

/-- The `while` loop of `fetchMessages`, run for at most `fuel` evaluations of
its condition; `none` means the fuel ran out before the loop was left. -/
def fetchLoop {σ : Type} (P : Platform σ) (N : Int) : Nat → FetchState σ → Option (FetchRun σ)
  | 0, _ => none
  | fuel + 1, st =>
    match fetchStep P N st with
    | Sum.inr r => some r
    | Sum.inl st1 => fetchLoop P N fuel st1

/-- The call `fetchMessages(channel, totalMessages)`: the channel is the platform `P`
in state `s`, `N` is `totalMessages`.  The loop is given `N.toNat + 1`
evaluations of its condition, which always suffice (`fetchLoop_fuel`). -/
def fetchMessages {σ : Type} (P : Platform σ) (s : σ) (N : Int) : Option (FetchRun σ) :=
  fetchLoop P N (N.toNat + 1) (FetchState.init s)

/-! ### A channel with a fixed, finite history -/

/-- The messages of the newest-first history `H` that come after the message
with id `b`. -/
def olderThan : List Message → Nat → List Message
  | [], _ => []
  | m :: rest, b => if m.id = b then rest else olderThan rest b

/-- A page of the history `H`: the first `limit` messages after the message
with id `before`, from the start of `H` when `before` is unset. -/
def historyPage (H : List Message) (req : PageRequest) : List Message :=
  (match req.before with
   | none => H
   | some b => olderThan H b).take req.limit.toNat

/-- The platform that serves the pages of the fixed history `H`. -/
def historyPlatform (H : List Message) : Platform Unit where
  fetch := fun _ req => Except.ok (historyPage H req, ())

/-! ## The attachment saver (`saveAttachments`, lines 108-126) -/

/-- How the download of one attachment ends, as seen by the code of lines
112-119.  The promise awaited there is settled by two listeners only:
`res.body.on('error', reject)` and `stream.on('finish', resolve)`. -/
inductive Transfer where
  /-- The call `await fetch(attachment.url)` rejects (network error). -/
  | fetchRejected (message : String)
  /-- The call `createWriteStream(filePath)` throws. -/
  | openThrew (message : String)
  /-- The response body emits `error`: the promise is rejected. -/
  | bodyError (message : String)
  /-- The write stream emits `finish`: the promise is resolved. -/
  | finished
  /-- The write stream emits `error` (the file cannot be opened or written):
  no listener of the script is registered for this event. -/
  | streamError (message : String)
deriving DecidableEq

/-- The libraries and the machine the script runs on: `format` of date-fns
with the pattern of line 92, `path.join`, the outcome of downloading a URL into
a file path, `fs.mkdir` with `recursive: true`, the order in which `fs.mkdir`
calls issued together settle, and `fs.writeFile`. -/
structure Host where
  formatDate : Nat → String
  pathJoin : String → String → String
  transfer : String → String → Transfer
  mkdir : String → Except String Unit
  mkdirOrder : List String → List String
  writeFile : String → String → Except String Unit

/-- The function `Promise.all` on promises that either fulfil (`some`) or never settle
(`none`); none of the promises the script passes to it after line 94 rejects. -/
def promiseAll {α : Type} : List (Option α) → Option (List α)
  | [] => some []
  | none :: _ => none
  | some x :: rest => (promiseAll rest).map (fun xs => x :: xs)

/-- The loop of `Array.prototype.join`: `k` is the index of the next element,
`R` the string built so far. -/
def joinLoop (sep : String) : Nat → List String → String → String
  | _, [], R => R
  | k, x :: xs, R => joinLoop sep (k + 1) xs ((if k > 0 then R ++ sep else R) ++ x)

/-- The method `Array.prototype.join` on an array of strings. -/
def join (sep : String) (xs : List String) : String :=
  joinLoop sep 0 xs ""

/-- The first line of every attachment entry (line 121 and the start of line 123). -/
def urlLine (attachment : Attachment) : String :=
  "- URL: " ++ attachment.url

/-- The entry of the `catch` branch (line 123) for the error message `e`. -/
def failedEntry (attachment : Attachment) (e : String) : String :=
  urlLine attachment ++ "\n  Failed to save: " ++ attachment.name ++ " (" ++ e ++ ")"

/-- The callback of line 109 for one attachment: the entry it returns, or `none`
when the promise of lines 115-119 is never settled. -/
def saveAttachment (host : Host) (filesDir : String) (attachment : Attachment) :
    Option String :=
  match host.transfer attachment.url (host.pathJoin filesDir attachment.name) with
  | Transfer.finished => some (urlLine attachment)
  | Transfer.fetchRejected e => some (failedEntry attachment e)
  | Transfer.openThrew e => some (failedEntry attachment e)
  | Transfer.bodyError e => some (failedEntry attachment e)
  | Transfer.streamError _ => none

/-- The call `saveAttachments(attachments, filesDir)`: the string it resolves with,
or `none` when it never completes. -/
def saveAttachments (host : Host) (filesDir : String) (attachments : List Attachment) :
    Option String :=
  (promiseAll (attachments.map (saveAttachment host filesDir))).map (join "\n")

/-! ## The transcript formatter (`formatMessages`, lines 91-103) -/

/-- The template literal of line 95. -/
def messageLog (host : Host) (msg : Message) : String :=
  msg.content ++ "\n---- Sent By: " ++ msg.authorTag ++
    "\n--------- At: " ++ host.formatDate msg.createdAt ++
    (match msg.editedAt with
     | some edited => "\n-- Edited At: " ++ host.formatDate edited
     | none => "")

/-- The callback of line 94 for one message: the block it returns, or `none`
when `saveAttachments` never completes. -/
def formatMessage (host : Host) (filesDir : String) (msg : Message) : Option String :=
  if msg.attachments.length > 0 then
    (saveAttachments host filesDir msg.attachments).map
      (fun saved => messageLog host msg ++ "\nAttachments:\n" ++ saved)
  else
    some (messageLog host msg)

/-- The call `formatMessages(messages, filesDir)`. -/
def formatMessages (host : Host) (filesDir : String) (messages : List Message) :
    Option String :=
  (promiseAll (messages.map (formatMessage host filesDir))).map (join "\n\n")

/-- The lines of a text: the pieces between its newline characters. -/
def splitLines : List Char → List (List Char)
  | [] => [[]]
  | c :: cs =>
    if c = '\n' then [] :: splitLines cs
    else
      match splitLines cs with
      | [] => [[c]]
      | l :: ls => (c :: l) :: ls

/-- The lines of a string. -/
def lines (s : String) : List String :=
  (splitLines s.data).map String.mk

/-- A string without a newline character. -/
def oneLine (s : String) : Prop :=
  '\n' ∉ s.data

instance (s : String) : Decidable (oneLine s) := by
  unfold oneLine
  exact inferInstance

/-- Whether the download settles the promise of lines 115-119: every outcome does,
except an `error` event of the write stream. -/
def Transfer.settled : Transfer → Bool
  | Transfer.streamError _ => false
  | _ => true

/-- Every download of the attachments of `msg` settles the promise of lines
115-119. -/
def settles (host : Host) (filesDir : String) (msg : Message) : Prop :=
  ∀ a ∈ msg.attachments,
    (host.transfer a.url (host.pathJoin filesDir a.name)).settled = true

instance (host : Host) (filesDir : String) (msg : Message) :
    Decidable (settles host filesDir msg) := by
  unfold settles
  exact inferInstance

/-! ## The channel resolver and the `ready` handler (lines 22-65) -/

/-- A channel object of the platform: its name, the answer of
`isTextBased()`, and the platform behind `channel.messages.fetch` with its
current state. -/
structure Channel (σ : Type) where
  name : String
  isTextBased : Bool
  messages : Platform σ
  state : σ

/-- The client of the chat platform: `client.user.username` and
`client.channels.fetch`, which rejects for an identifier that does not
resolve. -/
structure Client (σ : Type) where
  username : String
  channels : String → Except String (Channel σ)

/-- The error `fetchChannel` throws for a channel that is not text-based
(line 61), as its message. -/
def invalidChannelError (channelId : String) : String :=
  "Invalid text channel: " ++ channelId

/-- The call `fetchChannel(channelId)`: what it settles with, and the lines it
prints. -/
def fetchChannel {σ : Type} (client : Client σ) (channelId : String) :
    Except String (Channel σ) × List String :=
  match client.channels channelId with
  | Except.error e => (Except.error e, [])
  | Except.ok channel =>
    if !channel.isTextBased then
      (Except.error (invalidChannelError channelId), [])
    else
      (Except.ok channel, ["Fetching and saving messages from " ++ channel.name ++ "..."])

/-- The error of the first `fs.mkdir` that rejects among the directories, taken
in the given order. -/
def firstRejection (host : Host) : List String → Option String
  | [] => none
  | dir :: rest =>
    match host.mkdir dir with
    | Except.error e => some e
    | Except.ok _ => firstRejection host rest

/-- The call `createDirectories(directories)`: every `fs.mkdir` is issued at once,
and `Promise.all` rejects when one of them does, with the error of the one
that rejects first in time.  The calls settle in the order `host.mkdirOrder`
gives (directories it leaves out settle last, in list order). -/
def createDirectories (host : Host) (directories : List String) : Except String Unit :=
  match firstRejection host
      ((host.mkdirOrder directories).filter (fun dir => decide (dir ∈ directories)) ++
        directories) with
  | some e => Except.error e
  | none => Except.ok ()

/-- The code points `String.prototype.trim` removes: white space and line
terminators of ECMAScript. -/
def isTrimmed (c : Char) : Bool :=
  c.toNat ∈ [0x09, 0x0A, 0x0B, 0x0C, 0x0D, 0x20, 0xA0, 0x1680, 0x2000, 0x2001, 0x2002,
    0x2003, 0x2004, 0x2005, 0x2006, 0x2007, 0x2008, 0x2009, 0x200A, 0x2028, 0x2029,
    0x202F, 0x205F, 0x3000, 0xFEFF]

/-- The method `String.prototype.trim`. -/
def trim (s : String) : String :=
  String.mk ((s.data.dropWhile isTrimmed).reverse.dropWhile isTrimmed).reverse

/-- The constant of line 25. -/
def totalMessages : Int := 200

/-- The constant of line 27. -/
def logDir : String := "logs"

/-- What one run of the `ready` handler did: the lines printed with
`console.log` and `console.error`, the directories passed to `fs.mkdir`, the
page requests sent to the platform, the path and content `fs.writeFile` was
called with (it is called at most once), and whether `client.destroy()` was
reached. -/
structure RunOutcome where
  stdout : List String
  stderr : List String
  dirs : List String
  pageRequests : List PageRequest
  written : Option (String × String)
  destroyed : Bool
deriving DecidableEq

/-- The `catch` and `finally` blocks of lines 39-43 after the `try` block threw
the error `e`. -/
def caught (out : RunOutcome) (e : String) : RunOutcome :=
  { out with stderr := out.stderr ++ ["Error: " ++ e], destroyed := true }

/-- The `ready` handler (lines 22-44) for `process.env.channelId = channelId`.
When `formatMessages` never completes the handler stays at its `await`:
nothing is written and `client.destroy()` is not reached. -/
def run {σ : Type} (client : Client σ) (host : Host) (channelId : String) : RunOutcome :=
  let filesDir := host.pathJoin logDir "files"
  let out0 : RunOutcome :=
    { stdout := ["Logged in as " ++ client.username], stderr := [],
      dirs := [logDir, filesDir], pageRequests := [], written := none, destroyed := false }
  match createDirectories host [logDir, filesDir] with
  | Except.error e => caught out0 e
  | Except.ok _ =>
    match fetchChannel client channelId with
    | (Except.error e, printed) => caught { out0 with stdout := out0.stdout ++ printed } e
    | (Except.ok channel, printed) =>
      let out1 := { out0 with stdout := out0.stdout ++ printed }
      match fetchMessages channel.messages channel.state totalMessages with
      | none => out1
      | some fetched =>
        let out2 := { out1 with pageRequests := fetched.final.requests }
        match fetched.error with
        | some e => caught out2 e
        | none =>
          match formatMessages host filesDir fetched.final.allMessages with
          | none => out2
          | some logContent =>
            let file := host.pathJoin logDir (channel.name ++ ".txt")
            let out3 := { out2 with written := some (file, trim logContent) }
            match host.writeFile file (trim logContent) with
            | Except.error e => caught out3 e
            | Except.ok _ =>
              { out3 with
                stdout := out3.stdout ++
                  ["Messages and attachments logged from " ++ channel.name ++ ". Total: " ++
                    toString fetched.final.allMessages.length],
                destroyed := true }

/-! ## Behaviours of a platform -/

/-- A page is newest-first: every message is strictly newer (has a larger
snowflake) than the messages after it. -/
def newestFirst (page : List Message) : Prop :=
  page.Pairwise (fun a b => b.id < a.id)

/-- A page answers its request with messages strictly older than the `before`
cursor only. -/
def olderThanCursor (req : PageRequest) (page : List Message) : Prop :=
  ∀ b, req.before = some b → ∀ m ∈ page, m.id < b

/-- The invariant of the loop against a platform whose pages are newest-first
and older than the cursor. -/
def cursorInv {σ : Type} (st : FetchState σ) : Prop :=
  newestFirst st.allMessages ∧
  st.cursors.Pairwise (fun a b => b < a) ∧
  (∀ b, st.lastMessageId = some b →
    (∀ m ∈ st.allMessages, b ≤ m.id) ∧ (∀ c ∈ st.cursors, b ≤ c)) ∧
  (st.lastMessageId = none → st.allMessages = [] ∧ st.cursors = []) ∧
  st.requests.filterMap PageRequest.before ++ st.lastMessageId.toList = st.cursors

/-- The invariant of the loop against the history `H`: the collected messages
are a start of `H` of at most `N` messages and the cursor is on the last of
them. -/
def historyInv (H : List Message) (N : Int) (st : FetchState Unit) : Prop :=
  (∃ rest, H = st.allMessages ++ rest) ∧ st.allMessages.length ≤ N.toNat ∧
  st.lastMessageId = st.allMessages.getLast?.map Message.id

/-- The lines of a block that follow its first `Attachments:` line. -/
def attachmentLines (block : String) : List String :=
  ((lines block).dropWhile (fun l => decide (l ≠ "Attachments:"))).drop 1

/-! ## Sample inputs -/

/-- A message without attachments that was never edited. -/
def sampleMessage (id : Nat) : Message :=
  { id := id, content := "hello", authorTag := "ada#0001", createdAt := 0,
    editedAt := none, attachments := [] }

/-- A newest-first history of five messages. -/
def sampleHistory : List Message :=
  [sampleMessage 5, sampleMessage 4, sampleMessage 3, sampleMessage 2, sampleMessage 1]

/-- A platform that serves the history `H` in pages of at most two messages,
whatever the limit of the request. -/
def slowPlatform (H : List Message) : Platform Unit where
  fetch := fun _ req => Except.ok (historyPage H { req with limit := min req.limit 2 }, ())

/-- A host on which the download of `down.png` is refused by the network, the
file of `locked.png` cannot be written, and everything else succeeds. -/
def sampleHost : Host where
  formatDate := fun d =>
    if d = 0 then "March 03, 2024 04:15:30 PM" else "March 04, 2024 09:00:00 AM"
  pathJoin := fun a b => a ++ "/" ++ b
  transfer := fun url _ =>
    if url = "https://cdn.example/down.png" then Transfer.fetchRejected "socket hang up"
    else if url = "https://cdn.example/locked.png" then
      Transfer.streamError "EACCES: permission denied"
    else Transfer.finished
  mkdir := fun _ => Except.ok ()
  mkdirOrder := fun directories => directories
  writeFile := fun _ _ => Except.ok ()

/-- An edited message with two attachments that download. -/
def editedMessage : Message :=
  { id := 8, content := "two files", authorTag := "bob#0002", createdAt := 0,
    editedAt := some 1,
    attachments := [{ name := "a.png", url := "https://cdn.example/a.png" },
                    { name := "b.png", url := "https://cdn.example/b.png" }] }

/-- A message with one attachment whose download the network refuses. -/
def failedMessage : Message :=
  { id := 7, content := "one file", authorTag := "ada#0001", createdAt := 0,
    editedAt := none,
    attachments := [{ name := "down.png", url := "https://cdn.example/down.png" }] }

/-- A message with two attachments; the file of the second cannot be written. -/
def lockedMessage : Message :=
  { id := 6, content := "locked", authorTag := "ada#0001", createdAt := 0,
    editedAt := none,
    attachments := [{ name := "a.png", url := "https://cdn.example/a.png" },
                    { name := "locked.png", url := "https://cdn.example/locked.png" }] }

/-- A client that knows the text channel `42` and the voice channel `7`; every
other identifier does not resolve. -/
def sampleClient : Client Unit where
  username := "logger"
  channels := fun id =>
    if id = "42" then
      Except.ok { name := "general", isTextBased := true,
                  messages := historyPlatform sampleHistory, state := () }
    else if id = "7" then
      Except.ok { name := "voice", isTextBased := false,
                  messages := historyPlatform [], state := () }
    else Except.error "Unknown Channel"

/-- A message with two attachments; the first downloads, the second is refused
by the network. -/
def mixedMessage : Message :=
  { id := 9, content := "mixed", authorTag := "ada#0001", createdAt := 0,
    editedAt := none,
    attachments := [{ name := "a.png", url := "https://cdn.example/a.png" },
                    { name := "down.png", url := "https://cdn.example/down.png" }] }

/-- A host on which `logs` exists as a file, so that both `fs.mkdir` calls reject,
the one for `logs/files` first. -/
def blockedHost : Host where
  formatDate := sampleHost.formatDate
  pathJoin := sampleHost.pathJoin
  transfer := sampleHost.transfer
  mkdir := fun dir =>
    if dir = "logs" then Except.error "EEXIST: file already exists, mkdir \x27logs\x27"
    else Except.error "ENOTDIR: not a directory, mkdir \x27logs/files\x27"
  mkdirOrder := fun directories => directories.reverse
  writeFile := sampleHost.writeFile

set_option maxRecDepth 4000

/-! ## The paginator: loop lemmas -/

section Paginator

variable {σ : Type}

/-- What a pass through the loop body that continues the loop did. -/
theorem fetchStep_inl {P : Platform σ} {N : Int} {st st1 : FetchState σ}
    (h : fetchStep P N st = Sum.inl st1) :
    (st.allMessages.length : Int) < N ∧
    ∃ page s, P.fetch st.platform (pageRequest N st) = Except.ok (page, s) ∧ page ≠ [] ∧
      st1 = { allMessages := st.allMessages ++ page,
              lastMessageId := page.getLast?.map Message.id,
              requests := st.requests ++ [pageRequest N st],
              cursors := st.cursors ++ (page.getLast?.map Message.id).toList,
              platform := s } := by
  unfold fetchStep at h
  split at h
  · rename_i hlt
    refine ⟨hlt, ?_⟩
    split at h
    · cases h
    · rename_i page s hf
      split at h
      · cases h
      · rename_i hne
        refine ⟨page, s, hf, ?_, ?_⟩
        · intro hp
          exact hne (by simp [hp])
        · cases h
          rfl
  · cases h

/-- The three ways the loop is left. -/
theorem fetchStep_inr {P : Platform σ} {N : Int} {st : FetchState σ} {r : FetchRun σ}
    (h : fetchStep P N st = Sum.inr r) :
    (¬ (st.allMessages.length : Int) < N ∧ r = { final := st, error := none }) ∨
    ((st.allMessages.length : Int) < N ∧ ∃ e,
      P.fetch st.platform (pageRequest N st) = Except.error e ∧
      r = { final := { st with requests := st.requests ++ [pageRequest N st] },
            error := some e }) ∨
    ((st.allMessages.length : Int) < N ∧ ∃ s,
      P.fetch st.platform (pageRequest N st) = Except.ok ([], s) ∧
      r = { final := { st with requests := st.requests ++ [pageRequest N st], platform := s },
            error := none }) := by
  unfold fetchStep at h
  split at h
  · rename_i hlt
    right
    split at h
    · rename_i e hf
      left
      exact ⟨hlt, e, hf, by cases h; rfl⟩
    · rename_i page s hf
      split at h
      · rename_i hz
        right
        have hp : page = [] := List.length_eq_zero.mp hz
        subst hp
        exact ⟨hlt, s, hf, by cases h; rfl⟩
      · cases h
  · rename_i hge
    left
    exact ⟨hge, by cases h; rfl⟩

/-- Invariant rule for the loop: a property kept by every continuing pass and
implying `Post` wherever the loop is left holds of every finished run. -/
theorem fetchLoop_invariant {P : Platform σ} {N : Int} (Inv : FetchState σ → Prop)
    (Post : FetchRun σ → Prop)
    (hstep : ∀ st st1, Inv st → fetchStep P N st = Sum.inl st1 → Inv st1)
    (hexit : ∀ st r, Inv st → fetchStep P N st = Sum.inr r → Post r) :
    ∀ (fuel : Nat) (st : FetchState σ) (r : FetchRun σ),
      Inv st → fetchLoop P N fuel st = some r → Post r := by
  intro fuel
  induction fuel with
  | zero => intro st r _ h; simp [fetchLoop] at h
  | succ fuel ih =>
    intro st r hinv h
    simp only [fetchLoop] at h
    cases hs : fetchStep P N st with
    | inl st1 =>
      rw [hs] at h
      exact ih st1 r (hstep st st1 hinv hs) h
    | inr r1 =>
      rw [hs] at h
      cases h
      exact hexit st r hinv hs

/-- Every pass that continues the loop strictly decreases
`N - allMessages.length`. -/
theorem fetchStep_decreases {P : Platform σ} {N : Int} {st st1 : FetchState σ}
    (h : fetchStep P N st = Sum.inl st1) :
    N - (st1.allMessages.length : Int) < N - (st.allMessages.length : Int) := by
  obtain ⟨_, page, s, _, hne, rfl⟩ := fetchStep_inl h
  have hpos : 0 < page.length := List.length_pos.mpr hne
  simp only [List.length_append, Nat.cast_add]
  omega

/-- The loop is left within `(N - allMessages.length).toNat + 1` evaluations of its
condition, whatever the platform answers. -/
theorem fetchLoop_fuel (P : Platform σ) (N : Int) :
    ∀ (fuel : Nat) (st : FetchState σ),
      (N - (st.allMessages.length : Int)).toNat < fuel →
      ∃ r, fetchLoop P N fuel st = some r := by
  intro fuel
  induction fuel with
  | zero => intro st h; omega
  | succ fuel ih =>
    intro st h
    simp only [fetchLoop]
    cases hs : fetchStep P N st with
    | inr r => exact ⟨r, rfl⟩
    | inl st1 =>
      have hdec := fetchStep_decreases hs
      have hlt := (fetchStep_inl hs).1
      exact ih st1 (by omega)

/-- More fuel does not change the result of a finished run. -/
theorem fetchLoop_mono (P : Platform σ) (N : Int) :
    ∀ (fuel extra : Nat) (st : FetchState σ) (r : FetchRun σ),
      fetchLoop P N fuel st = some r → fetchLoop P N (fuel + extra) st = some r := by
  intro fuel
  induction fuel with
  | zero => intro extra st r h; simp [fetchLoop] at h
  | succ fuel ih =>
    intro extra st r h
    have e : fuel + 1 + extra = (fuel + extra) + 1 := by omega
    rw [e]
    simp only [fetchLoop] at h ⊢
    cases hs : fetchStep P N st with
    | inr r1 => rw [hs] at h; exact h
    | inl st1 => rw [hs] at h; exact ih extra st1 r h

/-- The call `fetchMessages` always returns. -/
theorem fetchMessages_returns (P : Platform σ) (s : σ) (N : Int) :
    ∃ r, fetchMessages P s N = some r := by
  apply fetchLoop_fuel
  simp [FetchState.init]

/-- A property kept by the loop and true of the initial state holds of what
`fetchMessages` returns. -/
theorem fetchMessages_invariant {P : Platform σ} {N : Int} {s : σ} (Inv : FetchState σ → Prop)
    (Post : FetchRun σ → Prop) (h0 : Inv (FetchState.init s))
    (hstep : ∀ st st1, Inv st → fetchStep P N st = Sum.inl st1 → Inv st1)
    (hexit : ∀ st r, Inv st → fetchStep P N st = Sum.inr r → Post r) :
    ∃ r, fetchMessages P s N = some r ∧ Post r := by
  obtain ⟨r, hr⟩ := fetchMessages_returns P s N
  exact ⟨r, hr, fetchLoop_invariant Inv Post hstep hexit _ _ r h0 hr⟩

/-- The number of page requests never exceeds the number of messages collected
plus one, nor `N`. -/
theorem requests_bound (P : Platform σ) (s : σ) (N : Int) :
    ∃ r, fetchMessages P s N = some r ∧ r.final.requests.length ≤ N.toNat := by
  apply fetchMessages_invariant
    (fun st => st.requests.length ≤ st.allMessages.length ∧ st.requests.length ≤ N.toNat)
    (fun r => r.final.requests.length ≤ N.toNat)
  · simp [FetchState.init]
  · intro st st1 ⟨h1, h2⟩ hs
    obtain ⟨hlt, page, s1, _, hne, rfl⟩ := fetchStep_inl hs
    have hpos : 0 < page.length := List.length_pos.mpr hne
    simp only [List.length_append, List.length_singleton]
    omega
  · intro st r ⟨h1, h2⟩ hs
    rcases fetchStep_inr hs with ⟨_, rfl⟩ | ⟨hlt, e, _, rfl⟩ | ⟨hlt, s1, _, rfl⟩
    · exact h2
    · simp only [List.length_append, List.length_singleton]
      omega
    · simp only [List.length_append, List.length_singleton]
      omega

/-- With pages of at most `limit` messages the collected messages never exceed `N`. -/
theorem allMessages_bound (P : Platform σ) (s : σ) (N : Int)
    (hP : ∀ s0 req page s1, P.fetch s0 req = Except.ok (page, s1) →
      page.length ≤ req.limit.toNat) :
    ∃ r, fetchMessages P s N = some r ∧ r.final.allMessages.length ≤ N.toNat := by
  apply fetchMessages_invariant
    (fun st => st.allMessages.length ≤ N.toNat)
    (fun r => r.final.allMessages.length ≤ N.toNat)
  · simp [FetchState.init]
  · intro st st1 h1 hs
    obtain ⟨hlt, page, s1, hf, hne, rfl⟩ := fetchStep_inl hs
    have hl := hP _ _ _ _ hf
    simp only [pageRequest] at hl
    simp only [List.length_append]
    omega
  · intro st r h1 hs
    rcases fetchStep_inr hs with ⟨_, rfl⟩ | ⟨hlt, e, _, rfl⟩ | ⟨hlt, s1, _, rfl⟩ <;> exact h1

end Paginator
/-! ## The cursor walks backward -/

section Cursor

variable {σ : Type}

/-- In a newest-first page the last message is the oldest. -/
theorem newestFirst_getLast {page : List Message} {y : Message} (hp : newestFirst page)
    (hy : page.getLast? = some y) : ∀ m ∈ page, y.id ≤ m.id := by
  obtain ⟨ys, rfl⟩ := List.getLast?_eq_some_iff.mp hy
  intro m hm
  rcases List.mem_append.mp hm with h | h
  · have := (List.pairwise_append.mp hp).2.2 m h y (by simp)
    omega
  · simp at h
    subst h
    exact Nat.le_refl _

theorem cursorInv_step {P : Platform σ} {N : Int}
    (hnew : ∀ s0 req page s1, P.fetch s0 req = Except.ok (page, s1) → newestFirst page)
    (hold : ∀ s0 req page s1, P.fetch s0 req = Except.ok (page, s1) →
      olderThanCursor req page)
    (st st1 : FetchState σ) (hinv : cursorInv st) (hs : fetchStep P N st = Sum.inl st1) :
    cursorInv st1 := by
  obtain ⟨h1, h2, h3, h4, h5⟩ := hinv
  obtain ⟨_, page, s1, hf, hne, rfl⟩ := fetchStep_inl hs
  have hpn := hnew _ _ _ _ hf
  have hpo := hold _ _ _ _ hf
  obtain ⟨y, hy⟩ : ∃ y, page.getLast? = some y := by
    cases hl : page.getLast? with
    | none => exact absurd (List.getLast?_eq_none_iff.mp hl) hne
    | some y => exact ⟨y, rfl⟩
  have hymem : y ∈ page := List.mem_of_getLast?_eq_some hy
  have hlast := newestFirst_getLast hpn hy
  -- every message of the page is older than everything collected so far
  have hbelow : ∀ m ∈ page, (∀ a ∈ st.allMessages, m.id < a.id) ∧ (∀ c ∈ st.cursors, m.id < c) := by
    intro m hm
    cases hb : st.lastMessageId with
    | none =>
      obtain ⟨e1, e2⟩ := h4 hb
      simp [e1, e2]
    | some b =>
      have hmb : m.id < b := hpo b (by simp [pageRequest, hb]) m hm
      obtain ⟨ha, hc⟩ := h3 b hb
      exact ⟨fun a h => Nat.lt_of_lt_of_le hmb (ha a h),
             fun c h => Nat.lt_of_lt_of_le hmb (hc c h)⟩
  refine ⟨?_, ?_, ?_, ?_, ?_⟩
  · exact List.pairwise_append.mpr ⟨h1, hpn, fun a ha m hm => (hbelow m hm).1 a ha⟩
  · simp only [hy, Option.map_some', Option.toList_some]
    exact List.pairwise_append.mpr ⟨h2, by simp, fun c hc d hd => by
      simp at hd
      subst hd
      exact (hbelow y hymem).2 c hc⟩
  · intro b hb
    simp only [hy, Option.map_some', Option.some.injEq] at hb
    subst hb
    constructor
    · intro m hm
      rcases List.mem_append.mp hm with h | h
      · exact Nat.le_of_lt ((hbelow y hymem).1 m h)
      · exact hlast m h
    · intro c hc
      simp only [hy, Option.map_some', Option.toList_some] at hc
      rcases List.mem_append.mp hc with h | h
      · exact Nat.le_of_lt ((hbelow y hymem).2 c h)
      · simp at h
        subst h
        exact Nat.le_refl _
  · intro hn
    simp [hy] at hn
  · simp only [hy, Option.map_some', Option.toList_some, List.filterMap_append]
    rw [← h5]
    simp [pageRequest]
    cases st.lastMessageId <;> simp

/-- Against a platform whose pages are newest-first and strictly older than the
`before` cursor, the collected messages are newest-first, the cursors strictly
decrease, and the cursors sent to the platform are the cursors taken so far. -/
theorem cursors_walk_backward (P : Platform σ) (s : σ) (N : Int)
    (hnew : ∀ s0 req page s1, P.fetch s0 req = Except.ok (page, s1) → newestFirst page)
    (hold : ∀ s0 req page s1, P.fetch s0 req = Except.ok (page, s1) →
      olderThanCursor req page) :
    ∃ r, fetchMessages P s N = some r ∧
      r.final.cursors.Pairwise (fun a b => b < a) ∧
      newestFirst r.final.allMessages ∧
      r.final.requests.filterMap PageRequest.before <+: r.final.cursors := by
  apply fetchMessages_invariant cursorInv
    (fun r => r.final.cursors.Pairwise (fun a b => b < a) ∧
      newestFirst r.final.allMessages ∧
      r.final.requests.filterMap PageRequest.before <+: r.final.cursors)
  · simp [cursorInv, FetchState.init, newestFirst]
  · exact cursorInv_step hnew hold
  · intro st r ⟨h1, h2, h3, h4, h5⟩ hs
    rcases fetchStep_inr hs with ⟨_, rfl⟩ | ⟨hlt, e, _, rfl⟩ | ⟨hlt, s1, _, rfl⟩
    · exact ⟨h2, h1, ⟨_, h5⟩⟩
    · refine ⟨h2, h1, ?_⟩
      simp only [List.filterMap_append]
      rw [← h5]
      simp [pageRequest]
      cases st.lastMessageId <;> simp
    · refine ⟨h2, h1, ?_⟩
      simp only [List.filterMap_append]
      rw [← h5]
      simp [pageRequest]
      cases st.lastMessageId <;> simp

/-- A strictly decreasing list of numbers has no repetition. -/
theorem nodup_of_decreasing {l : List Nat} (h : l.Pairwise (fun a b => b < a)) : l.Nodup :=
  h.imp (fun hab => by omega)

/-- A newest-first list of messages has no repeated id, hence no repeated
message. -/
theorem newestFirst_nodup {l : List Message} (h : newestFirst l) :
    (l.map Message.id).Nodup ∧ l.Nodup := by
  constructor
  · rw [List.Nodup, List.pairwise_map]
    exact h.imp (fun hab => by omega)
  · exact h.imp (fun hab heq => by subst heq; omega)

end Cursor
/-! ## The paginator against a finite history -/

section History

/-- After the only message with id `x.id` come exactly the messages behind it. -/
theorem olderThan_append (pre post : List Message) (x : Message)
    (h : ∀ m ∈ pre, m.id ≠ x.id) : olderThan (pre ++ x :: post) x.id = post := by
  induction pre with
  | nil => simp [olderThan]
  | cons p pre ih =>
    have hp : p.id ≠ x.id := h p (by simp)
    simp only [List.cons_append, olderThan, hp, if_false]
    exact ih (fun m hm => h m (by simp [hm]))

/-- With the cursor on the last collected message, a page is the start of the
messages not collected yet. -/
theorem historyPage_rest {H collected rest : List Message} (hN : (H.map Message.id).Nodup)
    (hH : H = collected ++ rest) (l : Int) :
    historyPage H { limit := l, before := collected.getLast?.map Message.id } =
      rest.take l.toNat := by
  cases hl : collected.getLast? with
  | none =>
    have hc : collected = [] := List.getLast?_eq_none_iff.mp hl
    subst hc
    simp [historyPage, hH]
  | some x =>
    obtain ⟨ys, rfl⟩ := List.getLast?_eq_some_iff.mp hl
    have hne : ∀ m ∈ ys, m.id ≠ x.id := by
      intro m hm heq
      rw [hH] at hN
      simp only [List.map_append, List.map_cons, List.map_nil, List.append_assoc] at hN
      have hd2 := (List.nodup_append.mp hN).2.2
      exact hd2 (List.mem_map_of_mem Message.id hm) (by simp [heq])
    simp only [historyPage, Option.map_some']
    rw [hH, List.append_assoc]
    simp only [List.singleton_append]
    rw [olderThan_append ys rest x hne]

/-- Against a history with pairwise distinct ids `fetchMessages` resolves with
the first `N` messages of the history (all of it when it is shorter). -/
theorem fetchMessages_history (H : List Message) (N : Int)
    (hN : (H.map Message.id).Nodup) :
    ∃ r, fetchMessages (historyPlatform H) () N = some r ∧ r.error = none ∧
      r.final.allMessages = H.take N.toNat := by
  apply fetchMessages_invariant (historyInv H N)
    (fun r => r.error = none ∧ r.final.allMessages = H.take N.toNat)
  · exact ⟨⟨H, by simp [FetchState.init]⟩, by simp [FetchState.init], by simp [FetchState.init]⟩
  · intro st st1 ⟨⟨rest, hH⟩, hlen, hlast⟩ hs
    obtain ⟨hlt, page, s1, hf, hne, rfl⟩ := fetchStep_inl hs
    have hpage : page = rest.take (min 100 (N - (st.allMessages.length : Int))).toNat := by
      have := historyPage_rest hN hH (min 100 (N - (st.allMessages.length : Int)))
      simp only [historyPlatform, pageRequest, hlast, Except.ok.injEq, Prod.mk.injEq] at hf
      rw [← hf.1]
      exact this
    refine ⟨⟨rest.drop (min 100 (N - (st.allMessages.length : Int))).toNat, ?_⟩, ?_, ?_⟩
    · simp only [hpage, List.append_assoc, List.take_append_drop]
      exact hH
    · have hle : page.length ≤ (min 100 (N - (st.allMessages.length : Int))).toNat := by
        rw [hpage]
        exact List.length_take_le _ _
      simp only [List.length_append]
      omega
    · simp only [List.getLast?_append]
      cases hp : page.getLast? with
      | none => exact absurd (List.getLast?_eq_none_iff.mp hp) hne
      | some y => simp
  · intro st r ⟨⟨rest, hH⟩, hlen, hlast⟩ hs
    rcases fetchStep_inr hs with ⟨hge, rfl⟩ | ⟨hlt, e, hf, rfl⟩ | ⟨hlt, s1, hf, rfl⟩
    · refine ⟨rfl, ?_⟩
      have hk : st.allMessages.length = N.toNat := by omega
      simp only
      rw [hH, ← hk, List.take_left]
    · simp [historyPlatform] at hf
    · refine ⟨rfl, ?_⟩
      have := historyPage_rest hN hH (min 100 (N - (st.allMessages.length : Int)))
      simp only [historyPlatform, pageRequest, hlast, Except.ok.injEq, Prod.mk.injEq] at hf
      rw [hf.1] at this
      have hr : rest = [] := by
        rcases List.take_eq_nil_iff.mp this.symm with h | h
        · omega
        · exact h
      subst hr
      simp only [List.append_nil] at hH
      simp only
      rw [← hH]
      exact (List.take_of_length_le (by rw [hH]; exact hlen)).symm

end History
/-! ## Joining and splitting text -/

section Text

/-- The loop of `join` after its first element is the accumulating loop of
`String.intercalate`. -/
theorem joinLoop_succ (sep : String) (k : Nat) (xs : List String) (R : String) :
    joinLoop sep (k + 1) xs R = String.intercalate.go R sep xs := by
  induction xs generalizing k R with
  | nil => simp [joinLoop, String.intercalate.go]
  | cons x xs ih =>
    simp only [joinLoop, String.intercalate.go, Nat.succ_pos, gt_iff_lt, if_true]
    exact ih (k + 1) _

/-- The method `join` puts the separator between consecutive elements and nowhere
else. -/
theorem join_eq_intercalate (sep : String) (xs : List String) :
    join sep xs = sep.intercalate xs := by
  cases xs with
  | nil => simp [join, joinLoop, String.intercalate]
  | cons x xs =>
    simp only [join, joinLoop, String.intercalate, gt_iff_lt, Nat.lt_irrefl, if_false,
      String.empty_append]
    exact joinLoop_succ sep 0 xs x

theorem intercalate_go_append (sep a b : String) (xs : List String) :
    String.intercalate.go (a ++ b) sep xs = a ++ String.intercalate.go b sep xs := by
  induction xs generalizing b with
  | nil => simp [String.intercalate.go]
  | cons x xs ih =>
    simp only [String.intercalate.go]
    rw [String.append_assoc, String.append_assoc, ih, String.append_assoc]

theorem join_nil (sep : String) : join sep [] = "" := by
  simp [join, joinLoop]

theorem join_singleton (sep x : String) : join sep [x] = x := by
  simp [join, joinLoop]

theorem join_cons_cons (sep x y : String) (rest : List String) :
    join sep (x :: y :: rest) = x ++ sep ++ join sep (y :: rest) := by
  simp only [join_eq_intercalate, String.intercalate, String.intercalate.go]
  rw [String.append_assoc, intercalate_go_append, intercalate_go_append, String.append_assoc]

theorem splitLines_ne_nil (cs : List Char) : splitLines cs ≠ [] := by
  cases cs with
  | nil => simp [splitLines]
  | cons c cs =>
    simp only [splitLines]
    split
    · simp
    · split <;> simp

/-- Splitting distributes over a newline between two texts. -/
theorem splitLines_append (a b : List Char) :
    splitLines (a ++ '\n' :: b) = splitLines a ++ splitLines b := by
  induction a with
  | nil => simp [splitLines]
  | cons c a ih =>
    simp only [List.cons_append, splitLines]
    split
    · simp [ih]
    · have e : a.append ('\n' :: b) = a ++ '\n' :: b := rfl
      rw [e, ih]
      cases h : splitLines a with
      | nil => exact absurd h (splitLines_ne_nil a)
      | cons l ls => simp

/-- A text without a newline is one line. -/
theorem splitLines_oneLine (a : List Char) (h : '\n' ∉ a) : splitLines a = [a] := by
  induction a with
  | nil => simp [splitLines]
  | cons c a ih =>
    have hc : c ≠ '\n' := fun e => h (by simp [e])
    have ha : '\n' ∉ a := fun e => h (by simp [e])
    simp [splitLines, hc, ih ha]

theorem lines_append_newline (a b : String) : lines (a ++ "\n" ++ b) = lines a ++ lines b := by
  have e : (a ++ "\n" ++ b).data = a.data ++ '\n' :: b.data := by
    simp only [String.data_append]
    simp
  simp only [lines, e, splitLines_append, List.map_append]

theorem lines_oneLine (a : String) (h : oneLine a) : lines a = [a] := by
  simp only [lines, splitLines_oneLine a.data h, List.map_cons, List.map_nil]

theorem oneLine_append {a b : String} (ha : oneLine a) (hb : oneLine b) : oneLine (a ++ b) := by
  simp only [oneLine, String.data_append, List.mem_append, not_or]
  exact ⟨ha, hb⟩

/-- The lines of a non-empty list of texts joined by newlines are the lines of
the texts, one text after the other. -/
theorem lines_intercalate (x : String) (xs : List String) :
    lines ("\n".intercalate (x :: xs)) = ((x :: xs).map lines).flatten := by
  induction xs generalizing x with
  | nil => simp [String.intercalate, String.intercalate.go]
  | cons y ys ih =>
    have e : "\n".intercalate (x :: y :: ys) = x ++ "\n" ++ "\n".intercalate (y :: ys) := by
      rw [← join_eq_intercalate, join_cons_cons, join_eq_intercalate]
    rw [e, lines_append_newline, ih]
    simp

end Text
/-! ## The formatter and the attachment saver -/

section Formatter

/-- When every promise fulfils, `Promise.all` fulfils with the values in the order
of the promises. -/
theorem promiseAll_map {α β : Type} (f : α → Option β) (xs : List α)
    (h : ∀ x ∈ xs, (f x).isSome = true) :
    ∃ ys, promiseAll (xs.map f) = some ys ∧ List.Forall₂ (fun x y => f x = some y) xs ys := by
  induction xs with
  | nil => exact ⟨[], rfl, List.Forall₂.nil⟩
  | cons x xs ih =>
    obtain ⟨ys, hys, hall⟩ := ih (fun a ha => h a (by simp [ha]))
    obtain ⟨y, hy⟩ := Option.isSome_iff_exists.mp (h x (by simp))
    refine ⟨y :: ys, ?_, List.Forall₂.cons hy hall⟩
    simp [promiseAll, hy, hys]

/-- When `Promise.all` fulfils, every promise fulfilled, and the values are in
the order of the promises. -/
theorem promiseAll_some {α β : Type} (f : α → Option β) (xs : List α) (ys : List β)
    (h : promiseAll (xs.map f) = some ys) : List.Forall₂ (fun x y => f x = some y) xs ys := by
  induction xs generalizing ys with
  | nil =>
    simp only [List.map_nil, promiseAll, Option.some.injEq] at h
    subst h
    exact List.Forall₂.nil
  | cons x xs ih =>
    simp only [List.map_cons] at h
    cases hx : f x with
    | none => simp [hx, promiseAll] at h
    | some y =>
      rw [hx] at h
      simp only [promiseAll] at h
      cases hr : promiseAll (xs.map f) with
      | none => simp [hr] at h
      | some zs =>
        simp only [hr, Option.map_some', Option.some.injEq] at h
        subst h
        exact List.Forall₂.cons hx (ih zs hr)

/-- A promise that never settles keeps `Promise.all` from settling. -/
theorem promiseAll_map_none {α β : Type} (f : α → Option β) (xs : List α) (x : α)
    (hx : x ∈ xs) (h : f x = none) : promiseAll (xs.map f) = none := by
  induction xs with
  | nil => simp at hx
  | cons a xs ih =>
    simp only [List.map_cons]
    cases ha : f a with
    | none => simp [promiseAll]
    | some y =>
      rcases List.mem_cons.mp hx with e | e
      · rw [e, ha] at h
        cases h
      · simp [promiseAll, ih e]

/-- The entry of an attachment whose download settles: the URL line alone after
`finish`, the URL line and the failure line for a caught error. -/
theorem saveAttachment_settled (host : Host) (filesDir : String) (a : Attachment)
    (h : (host.transfer a.url (host.pathJoin filesDir a.name)).settled = true) :
    ∃ entry, saveAttachment host filesDir a = some entry ∧
      ((host.transfer a.url (host.pathJoin filesDir a.name) = Transfer.finished ∧
          entry = urlLine a) ∨
        ∃ e, entry = failedEntry a e ∧
          (host.transfer a.url (host.pathJoin filesDir a.name) = Transfer.fetchRejected e ∨
           host.transfer a.url (host.pathJoin filesDir a.name) = Transfer.openThrew e ∨
           host.transfer a.url (host.pathJoin filesDir a.name) = Transfer.bodyError e)) := by
  unfold saveAttachment
  cases ht : host.transfer a.url (host.pathJoin filesDir a.name) with
  | fetchRejected e => exact ⟨_, rfl, Or.inr ⟨e, rfl, Or.inl rfl⟩⟩
  | openThrew e => exact ⟨_, rfl, Or.inr ⟨e, rfl, Or.inr (Or.inl rfl)⟩⟩
  | bodyError e => exact ⟨_, rfl, Or.inr ⟨e, rfl, Or.inr (Or.inr rfl)⟩⟩
  | finished => exact ⟨_, rfl, Or.inl ⟨rfl, rfl⟩⟩
  | streamError e => simp [ht, Transfer.settled] at h

/-- When every download settles, `saveAttachments` resolves with the entries of
the attachments, in order, joined by single newlines. -/
theorem saveAttachments_entries (host : Host) (filesDir : String) (atts : List Attachment)
    (h : ∀ a ∈ atts, (host.transfer a.url (host.pathJoin filesDir a.name)).settled = true) :
    ∃ entries, List.Forall₂ (fun a e => saveAttachment host filesDir a = some e) atts entries ∧
      saveAttachments host filesDir atts = some ("\n".intercalate entries) := by
  obtain ⟨entries, he, hall⟩ := promiseAll_map (saveAttachment host filesDir) atts (by
    intro a ha
    obtain ⟨entry, hentry, _⟩ := saveAttachment_settled host filesDir a (h a ha)
    simp [hentry])
  exact ⟨entries, hall, by simp [saveAttachments, he, join_eq_intercalate]⟩

/-- The block of a message without attachments is the text of line 95. -/
theorem formatMessage_plain (host : Host) (filesDir : String) (msg : Message)
    (h : msg.attachments = []) : formatMessage host filesDir msg = some (messageLog host msg) := by
  simp [formatMessage, h]

/-- The block of a message with attachments whose downloads settle. -/
theorem formatMessage_attachments (host : Host) (filesDir : String) (msg : Message)
    (h : msg.attachments ≠ []) (hs : settles host filesDir msg) :
    ∃ entries,
      List.Forall₂ (fun a e => saveAttachment host filesDir a = some e) msg.attachments entries ∧
      formatMessage host filesDir msg =
        some (messageLog host msg ++ "\nAttachments:\n" ++ "\n".intercalate entries) := by
  obtain ⟨entries, hall, hsave⟩ := saveAttachments_entries host filesDir msg.attachments hs
  refine ⟨entries, hall, ?_⟩
  have hpos : msg.attachments.length > 0 := List.length_pos.mpr h
  simp [formatMessage, hpos, hsave]

/-- A message whose downloads settle gets a block. -/
theorem formatMessage_isSome (host : Host) (filesDir : String) (msg : Message)
    (hs : settles host filesDir msg) : (formatMessage host filesDir msg).isSome = true := by
  by_cases h : msg.attachments = []
  · simp [formatMessage_plain host filesDir msg h]
  · obtain ⟨entries, _, he⟩ := formatMessage_attachments host filesDir msg h hs
    simp [he]

/-- The lines of the text of line 95. -/
theorem lines_messageLog (host : Host) (msg : Message) (htag : oneLine msg.authorTag)
    (hdate : ∀ d, oneLine (host.formatDate d)) :
    lines (messageLog host msg) =
      lines msg.content ++
        ["---- Sent By: " ++ msg.authorTag, "--------- At: " ++ host.formatDate msg.createdAt] ++
        (match msg.editedAt with
         | some edited => ["-- Edited At: " ++ host.formatDate edited]
         | none => []) := by
  have e1 : "\n---- Sent By: " = "\n" ++ "---- Sent By: " := by decide
  have e2 : "\n--------- At: " = "\n" ++ "--------- At: " := by decide
  have e3 : "\n-- Edited At: " = "\n" ++ "-- Edited At: " := by decide
  have h1 : oneLine ("---- Sent By: " ++ msg.authorTag) := oneLine_append (by decide) htag
  have h2 : oneLine ("--------- At: " ++ host.formatDate msg.createdAt) :=
    oneLine_append (by decide) (hdate _)
  have base : lines (msg.content ++ "\n---- Sent By: " ++ msg.authorTag ++
      "\n--------- At: " ++ host.formatDate msg.createdAt) =
      lines msg.content ++
        ["---- Sent By: " ++ msg.authorTag, "--------- At: " ++ host.formatDate msg.createdAt] := by
    have r : msg.content ++ "\n---- Sent By: " ++ msg.authorTag ++
        "\n--------- At: " ++ host.formatDate msg.createdAt =
        (msg.content ++ "\n" ++ ("---- Sent By: " ++ msg.authorTag)) ++ "\n" ++
          ("--------- At: " ++ host.formatDate msg.createdAt) := by
      rw [e1, e2]
      simp only [String.append_assoc]
    rw [r, lines_append_newline, lines_append_newline, lines_oneLine _ h1, lines_oneLine _ h2]
    simp
  unfold messageLog
  cases hed : msg.editedAt with
  | none =>
    simp only [String.append_empty, List.append_nil]
    exact base
  | some edited =>
    have h3 : oneLine ("-- Edited At: " ++ host.formatDate edited) :=
      oneLine_append (by decide) (hdate _)
    have r : msg.content ++ "\n---- Sent By: " ++ msg.authorTag ++
        "\n--------- At: " ++ host.formatDate msg.createdAt ++
        ("\n-- Edited At: " ++ host.formatDate edited) =
        (msg.content ++ "\n---- Sent By: " ++ msg.authorTag ++
        "\n--------- At: " ++ host.formatDate msg.createdAt) ++ "\n" ++
          ("-- Edited At: " ++ host.formatDate edited) := by
      rw [e3]
      simp only [String.append_assoc]
    simp only
    rw [r, lines_append_newline, base, lines_oneLine _ h3]

/-- The lines of a block with an attachment section. -/
theorem lines_attachments (log : String) (x : String) (xs : List String) :
    lines (log ++ "\nAttachments:\n" ++ "\n".intercalate (x :: xs)) =
      lines log ++ "Attachments:" :: ((x :: xs).map lines).flatten := by
  have e : "\nAttachments:\n" = "\n" ++ "Attachments:" ++ "\n" := by decide
  have r : log ++ "\nAttachments:\n" ++ "\n".intercalate (x :: xs) =
      (log ++ "\n" ++ "Attachments:") ++ "\n" ++ "\n".intercalate (x :: xs) := by
    rw [e]
    simp only [String.append_assoc]
  rw [r, lines_append_newline, lines_append_newline, lines_oneLine "Attachments:" (by decide),
    lines_intercalate]
  simp

/-- Every entry records the outcome of its download: the URL line alone exactly
for a download that finished, the URL line followed by the failure line with
the message of the error for a download that failed. -/
theorem entries_exact (host : Host) (filesDir : String) (atts : List Attachment)
    (entries : List String)
    (h : List.Forall₂ (fun a e => saveAttachment host filesDir a = some e) atts entries) :
    List.Forall₂ (fun a e => saveAttachment host filesDir a = some e ∧
      ((host.transfer a.url (host.pathJoin filesDir a.name) = Transfer.finished ∧
          e = urlLine a) ∨
        ∃ err,
          (host.transfer a.url (host.pathJoin filesDir a.name) = Transfer.fetchRejected err ∨
           host.transfer a.url (host.pathJoin filesDir a.name) = Transfer.openThrew err ∨
           host.transfer a.url (host.pathJoin filesDir a.name) = Transfer.bodyError err) ∧
          e = urlLine a ++ "\n  Failed to save: " ++ a.name ++ " (" ++ err ++ ")"))
      atts entries := by
  refine List.Forall₂.imp ?_ h
  intro a e hae
  refine ⟨hae, ?_⟩
  unfold saveAttachment at hae
  cases ht : host.transfer a.url (host.pathJoin filesDir a.name) with
  | fetchRejected err =>
    rw [ht] at hae
    exact Or.inr ⟨err, Or.inl rfl, (Option.some.inj hae).symm⟩
  | openThrew err =>
    rw [ht] at hae
    exact Or.inr ⟨err, Or.inr (Or.inl rfl), (Option.some.inj hae).symm⟩
  | bodyError err =>
    rw [ht] at hae
    exact Or.inr ⟨err, Or.inr (Or.inr rfl), (Option.some.inj hae).symm⟩
  | finished =>
    rw [ht] at hae
    exact Or.inl ⟨rfl, (Option.some.inj hae).symm⟩
  | streamError err =>
    rw [ht] at hae
    cases hae

/-- Every text has at least one line. -/
theorem lines_length_pos (s : String) : 1 ≤ (lines s).length := by
  simp only [lines, List.length_map]
  exact List.length_pos.mpr (splitLines_ne_nil s.data)

/-- The entry of a failed download has at least two lines. -/
theorem lines_failedEntry (a : Attachment) (err : String) :
    2 ≤ (lines (urlLine a ++ "\n  Failed to save: " ++ a.name ++ " (" ++ err ++ ")")).length := by
  have e : "\n  Failed to save: " = "\n" ++ "  Failed to save: " := by decide
  have r : urlLine a ++ "\n  Failed to save: " ++ a.name ++ " (" ++ err ++ ")" =
      urlLine a ++ "\n" ++ ("  Failed to save: " ++ a.name ++ " (" ++ err ++ ")") := by
    rw [e]
    simp only [String.append_assoc]
  rw [r, lines_append_newline, List.length_append]
  have h1 := lines_length_pos (urlLine a)
  have h2 := lines_length_pos ("  Failed to save: " ++ a.name ++ " (" ++ err ++ ")")
  omega

/-- The entries have at least one line each, and one line each only when every
download finished. -/
theorem entries_lines_count (host : Host) (filesDir : String) (atts : List Attachment)
    (entries : List String)
    (h : List.Forall₂ (fun a e => saveAttachment host filesDir a = some e) atts entries) :
    atts.length ≤ (entries.map lines).flatten.length ∧
    ((entries.map lines).flatten.length = atts.length →
      ∀ a ∈ atts, host.transfer a.url (host.pathJoin filesDir a.name) = Transfer.finished) := by
  induction h with
  | nil => exact ⟨Nat.le_refl _, fun _ a ha => by simp at ha⟩
  | @cons a e atts es hae hrest ih =>
    have hpos := lines_length_pos e
    simp only [List.map_cons, List.flatten_cons, List.length_append, List.length_cons]
    refine ⟨by omega, ?_⟩
    intro heq b hb
    have hone : (lines e).length = 1 := by omega
    have hrest2 : (es.map lines).flatten.length = atts.length := by omega
    rcases List.mem_cons.mp hb with rfl | hb2
    · have hex := entries_exact host filesDir [b] [e] (List.Forall₂.cons hae List.Forall₂.nil)
      cases hex with
      | cons hbe _ =>
        rcases hbe.2 with ⟨hfin, _⟩ | ⟨err, _, hform⟩
        · exact hfin
        · have h2 := lines_failedEntry b err
          rw [← hform] at h2
          omega
    · exact ih.2 hrest2 b hb2

/-- When every download succeeds and no URL holds a newline, the entries are
one line each: the URL lines of the attachments. -/
theorem entries_lines_finished (host : Host) (filesDir : String) (atts : List Attachment)
    (entries : List String)
    (h : List.Forall₂ (fun a e => saveAttachment host filesDir a = some e) atts entries)
    (hok : ∀ a ∈ atts, oneLine a.url ∧
      host.transfer a.url (host.pathJoin filesDir a.name) = Transfer.finished) :
    (entries.map lines).flatten = atts.map urlLine := by
  induction h with
  | nil => rfl
  | @cons a e atts es hae _ ih =>
    have ha := hok a (by simp)
    have he : e = urlLine a := by
      simp only [saveAttachment, ha.2, Option.some.injEq] at hae
      exact hae.symm
    have hl : lines e = [urlLine a] := by
      rw [he]
      exact lines_oneLine _ (oneLine_append (by decide) ha.1)
    simp only [List.map_cons, List.flatten_cons, hl, List.singleton_append]
    rw [ih (fun b hb => hok b (by simp [hb]))]

end Formatter
/-! ## Properties of the sample platforms -/

section Samples

/-- What comes after a cursor is an end of the history. -/
theorem olderThan_suffix (H : List Message) (b : Nat) : olderThan H b <:+ H := by
  induction H with
  | nil => simp [olderThan]
  | cons m rest ih =>
    simp only [olderThan]
    split
    · exact List.suffix_cons m rest
    · exact ih.trans (List.suffix_cons m rest)

/-- In a newest-first history what comes after a cursor is older than it. -/
theorem olderThan_lt (H : List Message) (b : Nat) (hH : newestFirst H) :
    ∀ m ∈ olderThan H b, m.id < b := by
  induction H with
  | nil => simp [olderThan]
  | cons m0 rest ih =>
    have hp := List.pairwise_cons.mp hH
    simp only [olderThan]
    split
    · rename_i heq
      intro m hm
      rw [← heq]
      exact hp.1 m hm
    · exact ih hp.2

theorem historyPage_sublist (H : List Message) (req : PageRequest) :
    (historyPage H req).Sublist H := by
  unfold historyPage
  cases req.before with
  | none => exact List.take_sublist _ _
  | some b => exact (List.take_sublist _ _).trans (olderThan_suffix H b).sublist

theorem historyPage_newestFirst (H : List Message) (req : PageRequest) (hH : newestFirst H) :
    newestFirst (historyPage H req) :=
  List.Pairwise.sublist (historyPage_sublist H req) hH

theorem historyPage_older (H : List Message) (req : PageRequest) (l : Int)
    (hH : newestFirst H) :
    olderThanCursor req (historyPage H { req with limit := l }) := by
  intro b hb m hm
  simp only [historyPage, hb] at hm
  exact olderThan_lt H b hH m (List.mem_of_mem_take hm)

theorem historyPage_length (H : List Message) (req : PageRequest) :
    (historyPage H req).length ≤ req.limit.toNat := by
  unfold historyPage
  exact List.length_take_le _ _

theorem sampleHistory_newestFirst : newestFirst sampleHistory := by
  simp [newestFirst, sampleHistory, sampleMessage]

theorem sampleHost_formatDate (d : Nat) : oneLine (sampleHost.formatDate d) := by
  simp only [sampleHost]
  split <;> decide

end Samples
/-! ## The claims about the paginator -/

/-- C1: against a channel that is a finite newest-first history `H` with
pairwise distinct ids, served page by page, `fetchMessages(channel, N)` with
`N` in [10,1000] returns and resolves (no error) with exactly the first
`min(N, |H|)` messages of `H` in the order of `H`; it returns `min(N, |H|)`
messages, and all of `H` when `|H| < N`. -/
theorem C1_fetchMessages_returns_newest (H : List Message) (N : Int)
    (hids : (H.map Message.id).Nodup) (hlo : 10 ≤ N) (hhi : N ≤ 1000) :
    ∃ r, fetchMessages (historyPlatform H) () N = some r ∧ r.error = none ∧
      r.final.allMessages = H.take (min N.toNat H.length) ∧
      r.final.allMessages.length = min N.toNat H.length ∧
      ((H.length : Int) < N → r.final.allMessages = H) := by
  obtain ⟨r, hr, herr, hall⟩ := fetchMessages_history H N hids
  refine ⟨r, hr, herr, ?_, ?_, ?_⟩
  · rw [hall, List.take_eq_take]
    simp
  · rw [hall, List.length_take]
  · intro hlt
    rw [hall]
    exact List.take_of_length_le (by omega)

theorem C1_fetchMessages_returns_newest_witness :
    (sampleHistory.map Message.id).Nodup ∧ (10 : Int) ≤ 10 ∧ (10 : Int) ≤ 1000 ∧
    (fetchMessages (historyPlatform sampleHistory) () 10).map
      (fun r => (r.final.allMessages.map Message.id, r.final.requests)) =
      some ([5, 4, 3, 2, 1], [{ limit := 10, before := none }, { limit := 5, before := some 1 }]) ∧
    ∃ r, fetchMessages (historyPlatform sampleHistory) () 10 = some r ∧ r.error = none ∧
      r.final.allMessages = sampleHistory.take (min (10 : Int).toNat sampleHistory.length) ∧
      r.final.allMessages.length = min (10 : Int).toNat sampleHistory.length ∧
      ((sampleHistory.length : Int) < 10 → r.final.allMessages = sampleHistory) :=
  ⟨by decide, by decide, by decide, by decide,
    C1_fetchMessages_returns_newest sampleHistory 10 (by decide) (by decide) (by decide)⟩

/-- C2: against every platform whose pages hold at most `limit` messages,
`fetchMessages(channel, N)` returns, and the number of messages it collected
is at most `N` (for a negative `N` it is zero). -/
theorem C2_fetched_at_most_requested {σ : Type} (P : Platform σ) (s : σ) (N : Int)
    (hP : ∀ s0 req page s1, P.fetch s0 req = Except.ok (page, s1) →
      page.length ≤ req.limit.toNat) :
    ∃ r, fetchMessages P s N = some r ∧ r.final.allMessages.length ≤ N.toNat ∧
      (0 ≤ N → (r.final.allMessages.length : Int) ≤ N) := by
  obtain ⟨r, hr, hb⟩ := allMessages_bound P s N hP
  exact ⟨r, hr, hb, fun h0 => by omega⟩

theorem C2_fetched_at_most_requested_witness :
    (∀ s0 req page s1, (slowPlatform sampleHistory).fetch s0 req = Except.ok (page, s1) →
      page.length ≤ req.limit.toNat) ∧
    ∃ r, fetchMessages (slowPlatform sampleHistory) () 3 = some r ∧
      r.final.allMessages.length ≤ (3 : Int).toNat ∧
      ((0 : Int) ≤ 3 → (r.final.allMessages.length : Int) ≤ 3) :=
  have hP : ∀ s0 req page s1,
      (slowPlatform sampleHistory).fetch s0 req = Except.ok (page, s1) →
      page.length ≤ req.limit.toNat := by
    intro s0 req page s1 h
    simp only [slowPlatform, Except.ok.injEq, Prod.mk.injEq] at h
    rw [← h.1]
    have := historyPage_length sampleHistory { req with limit := min req.limit 2 }
    simp only at this
    omega
  ⟨hP, C2_fetched_at_most_requested (slowPlatform sampleHistory) () 3 hP⟩

/-- C3: against every platform whose pages are newest-first and hold only
messages strictly older than the `before` cursor, `fetchMessages` returns and
the values taken by `lastMessageId`, in the order they were taken, strictly
decrease; so no value is taken twice, no cursor is sent to the platform twice,
and no message (no id) occurs twice in the collected messages. -/
theorem C3_cursor_strictly_decreases {σ : Type} (P : Platform σ) (s : σ) (N : Int)
    (hnew : ∀ s0 req page s1, P.fetch s0 req = Except.ok (page, s1) → newestFirst page)
    (hold : ∀ s0 req page s1, P.fetch s0 req = Except.ok (page, s1) →
      olderThanCursor req page) :
    ∃ r, fetchMessages P s N = some r ∧
      r.final.cursors.Pairwise (fun earlier later => later < earlier) ∧
      r.final.cursors.Nodup ∧
      (r.final.requests.filterMap PageRequest.before).Nodup ∧
      r.final.allMessages.Nodup ∧
      (r.final.allMessages.map Message.id).Nodup := by
  obtain ⟨r, hr, hc, hm, hpre⟩ := cursors_walk_backward P s N hnew hold
  have hn := nodup_of_decreasing hc
  exact ⟨r, hr, hc, hn, List.Nodup.sublist hpre.sublist hn, (newestFirst_nodup hm).2,
    (newestFirst_nodup hm).1⟩

theorem C3_cursor_strictly_decreases_witness :
    (∀ s0 req page s1, (slowPlatform sampleHistory).fetch s0 req = Except.ok (page, s1) →
      newestFirst page) ∧
    (∀ s0 req page s1, (slowPlatform sampleHistory).fetch s0 req = Except.ok (page, s1) →
      olderThanCursor req page) ∧
    (fetchMessages (slowPlatform sampleHistory) () 5).map (fun r => r.final.cursors) =
      some [4, 2, 1] ∧
    ∃ r, fetchMessages (slowPlatform sampleHistory) () 5 = some r ∧
      r.final.cursors.Pairwise (fun earlier later => later < earlier) ∧
      r.final.cursors.Nodup ∧
      (r.final.requests.filterMap PageRequest.before).Nodup ∧
      r.final.allMessages.Nodup ∧
      (r.final.allMessages.map Message.id).Nodup :=
  have hnew : ∀ s0 req page s1,
      (slowPlatform sampleHistory).fetch s0 req = Except.ok (page, s1) → newestFirst page := by
    intro s0 req page s1 h
    simp only [slowPlatform, Except.ok.injEq, Prod.mk.injEq] at h
    rw [← h.1]
    exact historyPage_newestFirst _ _ sampleHistory_newestFirst
  have hold : ∀ s0 req page s1,
      (slowPlatform sampleHistory).fetch s0 req = Except.ok (page, s1) →
      olderThanCursor req page := by
    intro s0 req page s1 h
    simp only [slowPlatform, Except.ok.injEq, Prod.mk.injEq] at h
    rw [← h.1]
    exact historyPage_older _ req _ sampleHistory_newestFirst
  ⟨hnew, hold, by decide,
    C3_cursor_strictly_decreases (slowPlatform sampleHistory) () 5 hnew hold⟩

/-- C4: for every target count `N` and every platform, the loop of
`fetchMessages` terminates: `N.toNat + 1` evaluations of the loop condition
suffice and more change nothing; an empty page leaves the loop; every
non-empty page strictly decreases `N - allMessages.length`; and at most `N`
page requests are issued (none for a negative `N`). -/
theorem C4_fetchMessages_terminates {σ : Type} (P : Platform σ) (s : σ) (N : Int) :
    (∃ r, fetchMessages P s N = some r ∧
      (∀ fuel, N.toNat + 1 ≤ fuel → fetchLoop P N fuel (FetchState.init s) = some r) ∧
      r.final.requests.length ≤ N.toNat ∧
      (0 ≤ N → (r.final.requests.length : Int) ≤ N)) ∧
    (∀ st s1, P.fetch st.platform (pageRequest N st) = Except.ok ([], s1) →
      ∃ r, fetchStep P N st = Sum.inr r) ∧
    (∀ st st1, fetchStep P N st = Sum.inl st1 →
      N - (st1.allMessages.length : Int) < N - (st.allMessages.length : Int)) := by
  refine ⟨?_, ?_, ?_⟩
  · obtain ⟨r, hr, hb⟩ := requests_bound P s N
    refine ⟨r, hr, ?_, hb, fun h0 => by omega⟩
    intro fuel hfuel
    obtain ⟨extra, rfl⟩ := Nat.exists_eq_add_of_le hfuel
    exact fetchLoop_mono P N _ extra _ r hr
  · intro st s1 hf
    cases hs : fetchStep P N st with
    | inr r => exact ⟨r, rfl⟩
    | inl st1 =>
      obtain ⟨_, page, s2, hf2, hne, _⟩ := fetchStep_inl hs
      rw [hf] at hf2
      simp only [Except.ok.injEq, Prod.mk.injEq] at hf2
      exact absurd hf2.1.symm hne
  · intro st st1 hs
    exact fetchStep_decreases hs

theorem C4_fetchMessages_terminates_witness :
    (fetchMessages (slowPlatform sampleHistory) () 5).map (fun r => r.final.requests.length) =
      some 3 ∧
    ((∃ r, fetchMessages (slowPlatform sampleHistory) () 5 = some r ∧
      (∀ fuel, (5 : Int).toNat + 1 ≤ fuel →
        fetchLoop (slowPlatform sampleHistory) 5 fuel (FetchState.init ()) = some r) ∧
      r.final.requests.length ≤ (5 : Int).toNat ∧
      ((0 : Int) ≤ 5 → (r.final.requests.length : Int) ≤ 5)) ∧
    (∀ st s1, (slowPlatform sampleHistory).fetch st.platform (pageRequest 5 st) =
        Except.ok ([], s1) →
      ∃ r, fetchStep (slowPlatform sampleHistory) 5 st = Sum.inr r) ∧
    (∀ st st1, fetchStep (slowPlatform sampleHistory) 5 st = Sum.inl st1 →
      (5 : Int) - (st1.allMessages.length : Int) < 5 - (st.allMessages.length : Int))) :=
  ⟨by decide, C4_fetchMessages_terminates (slowPlatform sampleHistory) () 5⟩

/-- C10: for every target count `N ≤ 0` and every channel, `fetchMessages`
returns at once with an empty collection: the loop body is never entered, so
no page request is issued and the platform is left untouched. -/
theorem C10_nonpositive_count {σ : Type} (P : Platform σ) (s : σ) (N : Int) (hN : N ≤ 0) :
    fetchMessages P s N = some { final := FetchState.init s, error := none } ∧
    (FetchState.init s).allMessages = [] ∧ (FetchState.init s).requests = [] ∧
    fetchLoop P N 1 (FetchState.init s) = some { final := FetchState.init s, error := none } := by
  have hlt : ¬ (((FetchState.init s).allMessages.length : Int) < N) := by
    simp only [FetchState.init, List.length_nil, Nat.cast_zero]
    omega
  have hstep : fetchStep P N (FetchState.init s) =
      Sum.inr { final := FetchState.init s, error := none } := by
    unfold fetchStep
    rw [if_neg hlt]
  refine ⟨?_, rfl, rfl, ?_⟩
  · simp only [fetchMessages, fetchLoop, hstep]
  · simp only [fetchLoop, hstep]

theorem C10_nonpositive_count_witness :
    ((-3 : Int) ≤ 0) ∧
    fetchMessages (historyPlatform sampleHistory) () (-3) =
      some { final := FetchState.init (), error := none } ∧
    (FetchState.init ()).allMessages = [] ∧ (FetchState.init ()).requests = [] ∧
    fetchLoop (historyPlatform sampleHistory) (-3) 1 (FetchState.init ()) =
      some { final := FetchState.init (), error := none } :=
  ⟨by decide, C10_nonpositive_count (historyPlatform sampleHistory) () (-3) (by decide)⟩

/-! ## The claims about the transcript -/

/-- C5: evaluation at the failing input.  The file of the second attachment of
`lockedMessage` cannot be written: the write stream emits `error`, for which
`saveAttachments` registers no listener, so the promise of lines 115-119 is
never settled, no entry is produced for the attachment, and neither
`saveAttachments` nor `formatMessages` completes.  (A download the network
refuses, by contrast, is recorded: see `saveAttachment_settled`.) -/
theorem C5_write_error_not_recorded :
    sampleHost.transfer "https://cdn.example/locked.png"
        (sampleHost.pathJoin "logs/files" "locked.png") =
      Transfer.streamError "EACCES: permission denied" ∧
    saveAttachment sampleHost "logs/files"
        { name := "locked.png", url := "https://cdn.example/locked.png" } = none ∧
    saveAttachments sampleHost "logs/files" lockedMessage.attachments = none ∧
    formatMessages sampleHost "logs/files" [failedMessage, lockedMessage] = none ∧
    saveAttachments sampleHost "logs/files" failedMessage.attachments =
      some "- URL: https://cdn.example/down.png\n  Failed to save: down.png (socket hang up)" := by
  decide

/-- C6: for every list of messages, the string `formatMessages` returns is the
concatenation of the blocks of the messages, one block per message in the
order of the list, with exactly two newlines between consecutive blocks and
nothing before the first or after the last block; it returns whenever the
attachment downloads settle, and the empty list gives the empty string. -/
theorem C6_transcript_is_blocks_in_order (host : Host) (filesDir : String)
    (messages : List Message) :
    (∀ transcript, formatMessages host filesDir messages = some transcript →
      ∃ blocks,
        List.Forall₂ (fun m b => formatMessage host filesDir m = some b) messages blocks ∧
        blocks.length = messages.length ∧
        transcript = "\n\n".intercalate blocks) ∧
    ((∀ m ∈ messages, settles host filesDir m) →
      ∃ transcript, formatMessages host filesDir messages = some transcript) ∧
    formatMessages host filesDir [] = some "" := by
  refine ⟨?_, ?_, ?_⟩
  · intro transcript h
    unfold formatMessages at h
    cases hb : promiseAll (messages.map (formatMessage host filesDir)) with
    | none => simp [hb] at h
    | some blocks =>
      simp only [hb, Option.map_some', Option.some.injEq] at h
      have hall := promiseAll_some _ _ _ hb
      exact ⟨blocks, hall, hall.length_eq.symm, by rw [← h, join_eq_intercalate]⟩
  · intro hs
    obtain ⟨blocks, hb, _⟩ := promiseAll_map (formatMessage host filesDir) messages
      (fun m hm => formatMessage_isSome host filesDir m (hs m hm))
    exact ⟨join "\n\n" blocks, by simp [formatMessages, hb]⟩
  · simp [formatMessages, promiseAll, join_nil]

theorem C6_transcript_is_blocks_in_order_witness :
    (∀ m ∈ [sampleMessage 5, editedMessage, failedMessage], settles sampleHost "logs/files" m) ∧
    formatMessages sampleHost "logs/files" [sampleMessage 5, failedMessage] =
      some ("hello\n---- Sent By: ada#0001\n--------- At: March 03, 2024 04:15:30 PM" ++
        "\n\n" ++
        "one file\n---- Sent By: ada#0001\n--------- At: March 03, 2024 04:15:30 PM" ++
        "\nAttachments:\n- URL: https://cdn.example/down.png" ++
        "\n  Failed to save: down.png (socket hang up)") ∧
    ((∀ transcript,
      formatMessages sampleHost "logs/files" [sampleMessage 5, editedMessage, failedMessage] =
        some transcript →
      ∃ blocks,
        List.Forall₂ (fun m b => formatMessage sampleHost "logs/files" m = some b)
          [sampleMessage 5, editedMessage, failedMessage] blocks ∧
        blocks.length = [sampleMessage 5, editedMessage, failedMessage].length ∧
        transcript = "\n\n".intercalate blocks) ∧
    ((∀ m ∈ [sampleMessage 5, editedMessage, failedMessage],
        settles sampleHost "logs/files" m) →
      ∃ transcript,
        formatMessages sampleHost "logs/files" [sampleMessage 5, editedMessage, failedMessage] =
          some transcript) ∧
    formatMessages sampleHost "logs/files" [] = some "") :=
  ⟨by decide, by decide,
    C6_transcript_is_blocks_in_order sampleHost "logs/files"
      [sampleMessage 5, editedMessage, failedMessage]⟩

/-- C7 as stated fails: `failedMessage` has one attachment, its download is
refused, and its block has two lines after the `Attachments:` line, not one. -/
theorem C7_counterexample :
    failedMessage.attachments.length = 1 ∧
    (formatMessage sampleHost "logs/files" failedMessage).map lines =
      some ["one file", "---- Sent By: ada#0001", "--------- At: March 03, 2024 04:15:30 PM",
        "Attachments:", "- URL: https://cdn.example/down.png",
        "  Failed to save: down.png (socket hang up)"] ∧
    ¬ ((formatMessage sampleHost "logs/files" failedMessage).map
        (fun block => (attachmentLines block).length) =
      some failedMessage.attachments.length) := by
  decide

/-- C7, amended: the block of a message without attachments is the text of
line 95 alone (no `Attachments:` section).  The block of a message with `k ≥ 1`
attachments whose downloads settle is that text, then the line `Attachments:`,
then exactly one entry per attachment (`k` entries) in the order of the
attachments, the entries separated by single newlines.  The entry of a
download that finished is the line `- URL: <url>` alone; the entry of a
download that failed is that line followed by the line
`  Failed to save: <name> (<error message>)` with the message of the error.
So the section has at least `k` lines after `Attachments:`, it has `k` lines
only when every download finished, and it has exactly the `k` URL lines when
every download finished and no URL holds a newline. -/
theorem C7_attachment_section (host : Host) (filesDir : String) (msg : Message) :
    (msg.attachments = [] → formatMessage host filesDir msg = some (messageLog host msg)) ∧
    (msg.attachments ≠ [] → settles host filesDir msg →
      ∃ entries block,
        entries.length = msg.attachments.length ∧
        List.Forall₂ (fun a e => saveAttachment host filesDir a = some e ∧
          ((host.transfer a.url (host.pathJoin filesDir a.name) = Transfer.finished ∧
              e = urlLine a) ∨
            ∃ err,
              (host.transfer a.url (host.pathJoin filesDir a.name) =
                  Transfer.fetchRejected err ∨
               host.transfer a.url (host.pathJoin filesDir a.name) =
                  Transfer.openThrew err ∨
               host.transfer a.url (host.pathJoin filesDir a.name) =
                  Transfer.bodyError err) ∧
              e = urlLine a ++ "\n  Failed to save: " ++ a.name ++ " (" ++ err ++ ")"))
          msg.attachments entries ∧
        formatMessage host filesDir msg = some block ∧
        block = messageLog host msg ++ "\nAttachments:\n" ++ "\n".intercalate entries ∧
        lines block =
          lines (messageLog host msg) ++ "Attachments:" :: (entries.map lines).flatten ∧
        msg.attachments.length ≤ (entries.map lines).flatten.length ∧
        ((entries.map lines).flatten.length = msg.attachments.length →
          ∀ a ∈ msg.attachments,
            host.transfer a.url (host.pathJoin filesDir a.name) = Transfer.finished) ∧
        ((∀ a ∈ msg.attachments, oneLine a.url ∧
            host.transfer a.url (host.pathJoin filesDir a.name) = Transfer.finished) →
          (entries.map lines).flatten = msg.attachments.map urlLine ∧
          lines block =
            lines (messageLog host msg) ++ "Attachments:" :: msg.attachments.map urlLine)) := by
  refine ⟨formatMessage_plain host filesDir msg, ?_⟩
  intro hne hs
  obtain ⟨entries, hall, hblock⟩ := formatMessage_attachments host filesDir msg hne hs
  have hlines : lines (messageLog host msg ++ "\nAttachments:\n" ++ "\n".intercalate entries) =
      lines (messageLog host msg) ++ "Attachments:" :: (entries.map lines).flatten := by
    cases entries with
    | nil => exact absurd (List.forall₂_nil_right_iff.mp hall) hne
    | cons x xs => exact lines_attachments _ x xs
  have hcount := entries_lines_count host filesDir _ _ hall
  refine ⟨entries, _, hall.length_eq.symm, entries_exact host filesDir _ _ hall, hblock, rfl,
    hlines, hcount.1, hcount.2, ?_⟩
  intro hok
  have hfin := entries_lines_finished host filesDir _ _ hall hok
  exact ⟨hfin, by rw [hlines, hfin]⟩

theorem C7_attachment_section_witness :
    (mixedMessage.attachments ≠ [] ∧ settles sampleHost "logs/files" mixedMessage) ∧
    (formatMessage sampleHost "logs/files" mixedMessage).map lines =
      some ["mixed", "---- Sent By: ada#0001", "--------- At: March 03, 2024 04:15:30 PM",
        "Attachments:", "- URL: https://cdn.example/a.png",
        "- URL: https://cdn.example/down.png",
        "  Failed to save: down.png (socket hang up)"] ∧
    ((mixedMessage.attachments = [] →
      formatMessage sampleHost "logs/files" mixedMessage =
        some (messageLog sampleHost mixedMessage)) ∧
    (mixedMessage.attachments ≠ [] → settles sampleHost "logs/files" mixedMessage →
      ∃ entries block,
        entries.length = mixedMessage.attachments.length ∧
        List.Forall₂ (fun a e => saveAttachment sampleHost "logs/files" a = some e ∧
          ((sampleHost.transfer a.url (sampleHost.pathJoin "logs/files" a.name) =
                Transfer.finished ∧
              e = urlLine a) ∨
            ∃ err,
              (sampleHost.transfer a.url (sampleHost.pathJoin "logs/files" a.name) =
                  Transfer.fetchRejected err ∨
               sampleHost.transfer a.url (sampleHost.pathJoin "logs/files" a.name) =
                  Transfer.openThrew err ∨
               sampleHost.transfer a.url (sampleHost.pathJoin "logs/files" a.name) =
                  Transfer.bodyError err) ∧
              e = urlLine a ++ "\n  Failed to save: " ++ a.name ++ " (" ++ err ++ ")"))
          mixedMessage.attachments entries ∧
        formatMessage sampleHost "logs/files" mixedMessage = some block ∧
        block = messageLog sampleHost mixedMessage ++ "\nAttachments:\n" ++
          "\n".intercalate entries ∧
        lines block =
          lines (messageLog sampleHost mixedMessage) ++
            "Attachments:" :: (entries.map lines).flatten ∧
        mixedMessage.attachments.length ≤ (entries.map lines).flatten.length ∧
        ((entries.map lines).flatten.length = mixedMessage.attachments.length →
          ∀ a ∈ mixedMessage.attachments,
            sampleHost.transfer a.url (sampleHost.pathJoin "logs/files" a.name) =
              Transfer.finished) ∧
        ((∀ a ∈ mixedMessage.attachments, oneLine a.url ∧
            sampleHost.transfer a.url (sampleHost.pathJoin "logs/files" a.name) =
              Transfer.finished) →
          (entries.map lines).flatten = mixedMessage.attachments.map urlLine ∧
          lines block =
            lines (messageLog sampleHost mixedMessage) ++
              "Attachments:" :: mixedMessage.attachments.map urlLine))) :=
  ⟨⟨by decide, by decide⟩, by decide,
    C7_attachment_section sampleHost "logs/files" mixedMessage⟩

/-- C8: for every message whose attachment downloads settle, the block is, in
this order: the content, `---- Sent By: <author tag>`,
`--------- At: <created timestamp>`, then `-- Edited At: <edited timestamp>`
exactly when the message was edited, then nothing more or the attachment
section.  Line by line (author tag and formatted dates hold no newline): the
lines of the content, the `Sent By` line, the `At` line, directly after it the
`Edited At` line if and only if the message was edited, then the lines of the
attachment section, if any. -/
theorem C8_block_field_order (host : Host) (filesDir : String) (msg : Message)
    (hs : settles host filesDir msg) (htag : oneLine msg.authorTag)
    (hdate : ∀ d, oneLine (host.formatDate d)) :
    ∃ block tail section_, formatMessage host filesDir msg = some block ∧
      block =
        msg.content ++ "\n---- Sent By: " ++ msg.authorTag ++
          "\n--------- At: " ++ host.formatDate msg.createdAt ++
          (match msg.editedAt with
           | some edited => "\n-- Edited At: " ++ host.formatDate edited
           | none => "") ++
          tail ∧
      lines block =
        lines msg.content ++
          ["---- Sent By: " ++ msg.authorTag,
           "--------- At: " ++ host.formatDate msg.createdAt] ++
          (match msg.editedAt with
           | some edited => ["-- Edited At: " ++ host.formatDate edited]
           | none => []) ++
          section_ ∧
      (msg.attachments = [] → tail = "" ∧ section_ = []) ∧
      (msg.attachments ≠ [] → ∃ saved,
        saveAttachments host filesDir msg.attachments = some saved ∧
        tail = "\nAttachments:\n" ++ saved ∧ section_ = "Attachments:" :: lines saved) := by
  by_cases hatt : msg.attachments = []
  · refine ⟨messageLog host msg, "", [], formatMessage_plain host filesDir msg hatt, ?_, ?_,
      fun _ => ⟨rfl, rfl⟩, fun h => absurd hatt h⟩
    · simp [messageLog]
    · rw [lines_messageLog host msg htag hdate]
      simp
  · obtain ⟨entries, hall, hsave⟩ := saveAttachments_entries host filesDir msg.attachments hs
    have hpos : msg.attachments.length > 0 := List.length_pos.mpr hatt
    cases entries with
    | nil => exact absurd (List.forall₂_nil_right_iff.mp hall) hatt
    | cons x xs =>
      refine ⟨messageLog host msg ++ "\nAttachments:\n" ++ "\n".intercalate (x :: xs),
        "\nAttachments:\n" ++ "\n".intercalate (x :: xs),
        "Attachments:" :: lines ("\n".intercalate (x :: xs)), ?_, ?_, ?_,
        fun h => absurd h hatt, fun _ => ⟨_, hsave, rfl, rfl⟩⟩
      · simp [formatMessage, hpos, hsave]
      · simp [messageLog, String.append_assoc]
      · rw [lines_attachments, lines_messageLog host msg htag hdate, lines_intercalate]

theorem C8_block_field_order_witness :
    (settles sampleHost "logs/files" editedMessage ∧ oneLine editedMessage.authorTag ∧
      ∀ d, oneLine (sampleHost.formatDate d)) ∧
    (formatMessage sampleHost "logs/files" editedMessage).map lines =
      some ["two files", "---- Sent By: bob#0002", "--------- At: March 03, 2024 04:15:30 PM",
        "-- Edited At: March 04, 2024 09:00:00 AM", "Attachments:",
        "- URL: https://cdn.example/a.png", "- URL: https://cdn.example/b.png"] ∧
    (formatMessage sampleHost "logs/files" (sampleMessage 5)).map lines =
      some ["hello", "---- Sent By: ada#0001", "--------- At: March 03, 2024 04:15:30 PM"] ∧
    ∃ block tail section_, formatMessage sampleHost "logs/files" editedMessage = some block ∧
      block =
        editedMessage.content ++ "\n---- Sent By: " ++ editedMessage.authorTag ++
          "\n--------- At: " ++ sampleHost.formatDate editedMessage.createdAt ++
          (match editedMessage.editedAt with
           | some edited => "\n-- Edited At: " ++ sampleHost.formatDate edited
           | none => "") ++
          tail ∧
      lines block =
        lines editedMessage.content ++
          ["---- Sent By: " ++ editedMessage.authorTag,
           "--------- At: " ++ sampleHost.formatDate editedMessage.createdAt] ++
          (match editedMessage.editedAt with
           | some edited => ["-- Edited At: " ++ sampleHost.formatDate edited]
           | none => []) ++
          section_ ∧
      (editedMessage.attachments = [] → tail = "" ∧ section_ = []) ∧
      (editedMessage.attachments ≠ [] → ∃ saved,
        saveAttachments sampleHost "logs/files" editedMessage.attachments = some saved ∧
        tail = "\nAttachments:\n" ++ saved ∧ section_ = "Attachments:" :: lines saved) :=
  ⟨⟨by decide, by decide, sampleHost_formatDate⟩, by decide, by decide,
    C8_block_field_order sampleHost "logs/files" editedMessage (by decide) (by decide)
      sampleHost_formatDate⟩

/-! ## The claim about the channel resolver -/

/-- When `fetchChannel` fails, the handler logs one error, tears the session
down, and neither requests a page nor writes a file. -/
theorem run_fetchChannel_failed {σ : Type} (client : Client σ) (host : Host)
    (channelId e : String) (h : (fetchChannel client channelId).1 = Except.error e) :
    (run client host channelId).pageRequests = [] ∧
    (run client host channelId).written = none ∧
    (run client host channelId).destroyed = true ∧
    (∃ logged, (run client host channelId).stderr = ["Error: " ++ logged]) ∧
    (createDirectories host [logDir, host.pathJoin logDir "files"] = Except.ok () →
      (run client host channelId).stderr = ["Error: " ++ e]) := by
  cases hfc : fetchChannel client channelId with
  | mk res printed =>
    rw [hfc] at h
    simp only at h
    subst h
    cases hd : createDirectories host [logDir, host.pathJoin logDir "files"] with
    | error e0 =>
      have hrun : run client host channelId =
          caught { stdout := ["Logged in as " ++ client.username], stderr := [],
                   dirs := [logDir, host.pathJoin logDir "files"], pageRequests := [],
                   written := none, destroyed := false } e0 := by
        simp only [run, hd]
      rw [hrun]
      exact ⟨rfl, rfl, rfl, ⟨e0, rfl⟩, fun h => by cases h⟩
    | ok u =>
      have hrun : run client host channelId =
          caught { stdout := ["Logged in as " ++ client.username] ++ printed, stderr := [],
                   dirs := [logDir, host.pathJoin logDir "files"], pageRequests := [],
                   written := none, destroyed := false } e := by
        simp only [run, hd, hfc]
      rw [hrun]
      exact ⟨rfl, rfl, rfl, ⟨e, rfl⟩, fun _ => rfl⟩

/-- When both directory creations reject, the handler logs the error of the one
that rejected first in time, here the one for `logs/files`. -/
theorem run_blockedHost :
    (run sampleClient blockedHost "42").stderr =
      ["Error: ENOTDIR: not a directory, mkdir \x27logs/files\x27"] ∧
    (run sampleClient blockedHost "42").pageRequests = [] ∧
    (run sampleClient blockedHost "42").written = none ∧
    (run sampleClient blockedHost "42").destroyed = true := by
  decide

/-- C9 as stated fails for an identifier that does not resolve: the lookup of
`123` rejects with the platform's `Unknown Channel`, and `fetchChannel` fails
with that error, not with the invalid-channel error carrying `123`. -/
theorem C9_counterexample :
    sampleClient.channels "123" = Except.error "Unknown Channel" ∧
    (fetchChannel sampleClient "123").1 = Except.error "Unknown Channel" ∧
    ¬ ((fetchChannel sampleClient "123").1 = Except.error (invalidChannelError "123")) := by
  refine ⟨rfl, rfl, ?_⟩
  intro h
  have h2 : (fetchChannel sampleClient "123").1 = Except.error "Unknown Channel" := rfl
  rw [h2] at h
  have h3 : "Unknown Channel" = invalidChannelError "123" := Except.error.inj h
  exact absurd h3 (by decide)

/-- C9, amended: for an identifier whose channel resolves and is not
text-based, `fetchChannel` fails with the error `Invalid text channel: <id>`;
for an identifier that does not resolve it fails with the error of the lookup,
unchanged; for a text-based channel it returns that channel unchanged.
Whenever `fetchChannel` fails, the run ends with one logged error and the
session torn down, without any page request and without writing a file. -/
theorem C9_invalid_channel_aborts {σ : Type} (client : Client σ) (host : Host)
    (channelId : String) :
    (∀ channel, client.channels channelId = Except.ok channel → channel.isTextBased = false →
      (fetchChannel client channelId).1 =
        Except.error ("Invalid text channel: " ++ channelId)) ∧
    (∀ e, client.channels channelId = Except.error e →
      (fetchChannel client channelId).1 = Except.error e) ∧
    (∀ channel, client.channels channelId = Except.ok channel → channel.isTextBased = true →
      (fetchChannel client channelId).1 = Except.ok channel) ∧
    (∀ e, (fetchChannel client channelId).1 = Except.error e →
      (run client host channelId).pageRequests = [] ∧
      (run client host channelId).written = none ∧
      (run client host channelId).destroyed = true ∧
      (∃ logged, (run client host channelId).stderr = ["Error: " ++ logged]) ∧
      (createDirectories host [logDir, host.pathJoin logDir "files"] = Except.ok () →
        (run client host channelId).stderr = ["Error: " ++ e])) := by
  refine ⟨?_, ?_, ?_, run_fetchChannel_failed client host channelId⟩
  · intro channel hc ht
    simp [fetchChannel, hc, ht, invalidChannelError]
  · intro e hc
    simp [fetchChannel, hc]
  · intro channel hc ht
    simp [fetchChannel, hc, ht]

theorem C9_invalid_channel_aborts_witness :
    run sampleClient sampleHost "7" =
      { stdout := ["Logged in as logger"], stderr := ["Error: Invalid text channel: 7"],
        dirs := ["logs", "logs/files"], pageRequests := [], written := none,
        destroyed := true } ∧
    run sampleClient sampleHost "123" =
      { stdout := ["Logged in as logger"], stderr := ["Error: Unknown Channel"],
        dirs := ["logs", "logs/files"], pageRequests := [], written := none,
        destroyed := true } ∧
    (run sampleClient sampleHost "42").stdout =
      ["Logged in as logger", "Fetching and saving messages from general...",
       "Messages and attachments logged from general. Total: 5"] ∧
    ((∀ channel, sampleClient.channels "7" = Except.ok channel → channel.isTextBased = false →
      (fetchChannel sampleClient "7").1 = Except.error ("Invalid text channel: " ++ "7")) ∧
    (∀ e, sampleClient.channels "7" = Except.error e →
      (fetchChannel sampleClient "7").1 = Except.error e) ∧
    (∀ channel, sampleClient.channels "7" = Except.ok channel → channel.isTextBased = true →
      (fetchChannel sampleClient "7").1 = Except.ok channel) ∧
    (∀ e, (fetchChannel sampleClient "7").1 = Except.error e →
      (run sampleClient sampleHost "7").pageRequests = [] ∧
      (run sampleClient sampleHost "7").written = none ∧
      (run sampleClient sampleHost "7").destroyed = true ∧
      (∃ logged, (run sampleClient sampleHost "7").stderr = ["Error: " ++ logged]) ∧
      (createDirectories sampleHost [logDir, sampleHost.pathJoin logDir "files"] =
          Except.ok () →
        (run sampleClient sampleHost "7").stderr = ["Error: " ++ e]))) :=
  ⟨by decide, by decide, by decide, C9_invalid_channel_aborts sampleClient sampleHost "7"⟩

end DiscordLogs
